import Mathlib

/-!
# Verification of the gdr ingestion/diagnostic pipeline

Shallow embedding of the core of the repository:

* `rrd.py` — `rrd_fetch`: fetch + optional mean-resampling onto a target step;
* `analyze.py` — `plot_fft` (periodicity detection), the period validation of
  the CLI entry point, the differencing call (`statsmodels` `diff`), and the
  ADF stationarity classification.

Timestamps are modelled as natural numbers of seconds measured from the
resampling origin (pandas' default `origin="start_day"`, i.e. midnight of the
first day of the series).  Sample values are rationals; a value that may be
missing is an `Option ℚ`.  Fallible code returns `Except String`.
-/

namespace Gdr

/-- Arithmetic mean of a list of rationals (division by zero yields 0,
matching the convention that an empty bucket contributes no value). -/
def mean (l : List ℚ) : ℚ := l.sum / l.length

/-- The native samples of `xs` (sampled at `start + i * s`) that fall into
resample bucket `b`, i.e. whose timestamp `time` satisfies `time / t = b`.
This is how `pandas.Series.resample(t).mean()` groups samples: bucket
boundaries are multiples of `t` counted from the origin. -/
def bucketSamples (start s t b : ℕ) (xs : List ℚ) : List ℚ :=
  (((List.range xs.length).filter fun i => decide ((start + i * s) / t = b)).map
    fun i => xs.getD i 0)

/-- The native samples of `xs` whose timestamp lies in the half-open window
`[b * t, (b + 1) * t)` — the samples "covered by" target-step bucket `b`. -/
def windowSamples (start s t b : ℕ) (xs : List ℚ) : List ℚ :=
  (((List.range xs.length).filter fun i =>
      decide (b * t ≤ start + i * s) && decide (start + i * s < (b + 1) * t)).map
    fun i => xs.getD i 0)

/-- `pandas.Series.resample(t).mean()` for a series with first timestamp
`start`, native step `s` and values `xs`: one bucket per multiple of `t`
between the bucket of the first sample and the bucket of the last sample,
each holding the arithmetic mean of the samples falling into it. -/
def resampleMean (start s t : ℕ) (xs : List ℚ) : List ℚ :=
  if xs = [] then []
  else
    let b0 := start / t
    let b1 := (start + (xs.length - 1) * s) / t
    (List.range (b1 + 1 - b0)).map fun i => mean (bucketSamples start s t (b0 + i) xs)

/-- The tuple returned by `rrd_fetch`: adjusted start, adjusted (exclusive)
end, step, and the per-source values. -/
structure FetchResult where
  fstart : ℕ
  fend : ℕ
  fstep : ℕ
  values : List ℚ
deriving DecidableEq, Repr

/-- Embedding of `rrd.rrd_fetch` for one data source (RRD files always carry
at least one data source, and `rrdtool.fetch` returns at least one row, so
the per-source loop body always runs).

* `start` is the adjusted start returned by `rrdtool.fetch`, in seconds from
  the pandas resampling origin; `rrd_step` is the file's native step; `raw`
  the fetched column.
* With no requested step (or a zero step — Python's `if step:` treats a zero
  `timedelta` as falsy) the native data is returned and the native step
  becomes the canonical step.
* A nonzero requested step smaller than the native step raises
  `ValueError` (the spec's `InvalidResampleError`).
* Otherwise the series is resampled by `.resample(step).mean()` and
  start/end are recomputed from the first/last bucket of the new index. -/
def rrd_fetch (start rrd_step : ℕ) (raw : List ℚ) (step : Option ℕ) :
    Except String FetchResult :=
  let endT := start + raw.length * rrd_step
  match step with
  | none => .ok ⟨start, endT, rrd_step, raw⟩
  | some t =>
    if t = 0 then .ok ⟨start, endT, rrd_step, raw⟩
    else if t < rrd_step then .error "Cannot downsample"
    else
      let ys := resampleMean start rrd_step t raw
      .ok ⟨(start / t) * t, (start / t + ys.length) * t, t, ys⟩

/-- Whether a fallible computation failed. -/
def isErr {α : Type} : Except String α → Bool
  | .error _ => true
  | .ok _ => false

end Gdr

deriving instance DecidableEq for Except

namespace Gdr

theorem isErr_ok {α : Type} (a : α) : isErr (.ok a) = false := rfl

theorem isErr_error {α : Type} (e : String) : isErr (.error e : Except String α) = true := rfl

/-- `getD` of a map over `List.range` evaluates the function at the index. -/
theorem getD_map_range {α : Type} (f : ℕ → α) {c b : ℕ} (d : α) (h : b < c) :
    ((List.range c).map f).getD b d = f b := by
  simp [List.getD_eq_getElem?_getD, List.getElem?_map, List.getElem?_range h]

/-- A timestamp falls into bucket `b` (`x / t = b`) exactly when it lies in
the half-open window `[b * t, (b + 1) * t)`. -/
theorem div_eq_iff_window {t : ℕ} (ht : 0 < t) (x b : ℕ) :
    x / t = b ↔ b * t ≤ x ∧ x < (b + 1) * t := by
  constructor
  · rintro rfl
    refine ⟨Nat.div_mul_le_self x t, ?_⟩
    calc x = t * (x / t) + x % t := (Nat.div_add_mod x t).symm
      _ < t * (x / t) + t := by have := Nat.mod_lt x ht; omega
      _ = (x / t + 1) * t := by ring
  · rintro ⟨h1, h2⟩
    exact Nat.div_eq_of_lt_le h1 h2

/-- The samples grouped into bucket `b` by the resampler are exactly the
samples whose timestamp is covered by the window `[b * t, (b + 1) * t)`. -/
theorem bucketSamples_eq_windowSamples {t : ℕ} (ht : 0 < t) (start s b : ℕ)
    (xs : List ℚ) : bucketSamples start s t b xs = windowSamples start s t b xs := by
  unfold bucketSamples windowSamples
  congr 1
  refine List.filter_congr fun i _ => ?_
  rw [← Bool.decide_and, decide_eq_decide]
  exact div_eq_iff_window ht _ b

/-- Core length computation: with the series start aligned to the target
step and the target step dividing the series duration, resampling yields
exactly `duration / t` buckets. -/
theorem resampleMean_length (start s t : ℕ) (xs : List ℚ)
    (hs : 0 < s) (hst : s ≤ t) (halign : t ∣ start) (hdur : t ∣ xs.length * s)
    (hxs : xs ≠ []) :
    (resampleMean start s t xs).length = xs.length * s / t := by
  have ht : 0 < t := lt_of_lt_of_le hs hst
  obtain ⟨a, rfl⟩ := halign
  obtain ⟨m, hm⟩ := hdur
  have hn : 0 < xs.length := List.length_pos.mpr hxs
  have hm1 : 1 ≤ m := by
    rcases Nat.eq_zero_or_pos m with h0 | h1
    · exfalso
      rw [h0, Nat.mul_zero] at hm
      have : 0 < xs.length * s := Nat.mul_pos hn hs
      omega
    · exact h1
  obtain ⟨m', rfl⟩ : ∃ m', m = m' + 1 := ⟨m - 1, by omega⟩
  have hb0 : t * a / t = a := Nat.mul_div_cancel_left a ht
  have hsub : xs.length - 1 + 1 = xs.length := by omega
  have hlast : (xs.length - 1) * s = t * (m' + 1) - s := by
    have : (xs.length - 1) * s + s = xs.length * s := by
      calc (xs.length - 1) * s + s = (xs.length - 1 + 1) * s := by ring
        _ = xs.length * s := by rw [hsub]
    omega
  have hkey : (t * (m' + 1) - s) / t = m' := by
    apply Nat.div_eq_of_lt_le
    · have h1 : t * (m' + 1) - s = t * m' + (t - s) := by
        have : t * (m' + 1) = t * m' + t := by ring
        omega
      rw [h1, Nat.mul_comm m' t]
      exact Nat.le_add_right _ _
    · have h1 : t * (m' + 1) - s = t * m' + (t - s) := by
        have : t * (m' + 1) = t * m' + t := by ring
        omega
      have h2 : (m' + 1) * t = t * m' + t := by ring
      have h3 : t - s < t := Nat.sub_lt ht hs
      omega
  have hb1 : (t * a + (xs.length - 1) * s) / t = a + m' := by
    rw [hlast, Nat.mul_add_div ht, hkey]
  rw [resampleMean, if_neg hxs]
  simp only [List.length_map, List.length_range]
  rw [hb0, hb1, hm, Nat.mul_div_cancel_left _ ht]
  omega

/-- C1 (amended): for a native step `s`, a target step `t ≥ s` that evenly
divides the series duration, and a series whose start is aligned to a whole
multiple of the target step (measured from the resampler's origin, midnight
of the first day — pandas' default `origin="start_day"`), `rrd_fetch` with
that step succeeds and produces `duration / t` values, the value of each
target-step bucket being the arithmetic mean of the native samples covered
by that bucket's window. -/
theorem rrd_fetch_resample_mean (start s t : ℕ) (raw : List ℚ)
    (hs : 0 < s) (hst : s ≤ t) (halign : t ∣ start) (hdur : t ∣ raw.length * s)
    (hraw : raw ≠ []) :
    ∃ r : FetchResult, rrd_fetch start s raw (some t) = Except.ok r ∧
      r.values.length = raw.length * s / t ∧
      ∀ b, b < r.values.length →
        r.values.getD b 0 = mean (windowSamples start s t (start / t + b) raw) := by
  have ht : 0 < t := lt_of_lt_of_le hs hst
  have htne : ¬(t = 0) := Nat.pos_iff_ne_zero.mp ht
  have hnotlt : ¬(t < s) := not_lt.mpr hst
  refine ⟨⟨(start / t) * t, (start / t + (resampleMean start s t raw).length) * t, t,
      resampleMean start s t raw⟩, ?_, ?_, ?_⟩
  · rw [rrd_fetch]
    simp only [htne, hnotlt, if_false]
  · exact resampleMean_length start s t raw hs hst halign hdur hraw
  · intro b hb
    have hlen : (resampleMean start s t raw).length =
        (start + (raw.length - 1) * s) / t + 1 - start / t := by
      rw [resampleMean, if_neg hraw]
      simp
    rw [hlen] at hb
    rw [resampleMean, if_neg hraw]
    simp only
    rw [getD_map_range _ 0 hb]
    rw [bucketSamples_eq_windowSamples ht]

/-- C1 counterexample: a series of 60 zero samples at native step 60 s
starting 300 s after the resampling origin (a start `rrdtool` can return:
00:05:00, aligned to the native step but not to the 600 s target step).
The target step 600 divides the 3600 s duration, yet resampling yields 7
buckets, not `duration / t = 6`: the bucket grid is anchored at the origin,
so the first and last buckets are only partially covered. -/
theorem rrd_fetch_resample_misaligned :
    (rrd_fetch 300 60 (List.replicate 60 (0 : ℚ)) (some 600)).map
        (fun r => r.values.length) = Except.ok 7 ∧
    7 ≠ 60 * 60 / 600 := by
  constructor
  · rfl
  · decide

/-- C1 witness: native step 1, target step 2, aligned start 0, four samples:
two buckets, each the mean of its two covered samples. -/
theorem rrd_fetch_resample_mean_witness :
    0 < 1 ∧ (1 : ℕ) ≤ 2 ∧ (2 : ℕ) ∣ 0 ∧ (2 : ℕ) ∣ [(1 : ℚ), 2, 3, 4].length * 1 ∧
      ([(1 : ℚ), 2, 3, 4] ≠ []) ∧
    (∃ r : FetchResult, rrd_fetch 0 1 [(1 : ℚ), 2, 3, 4] (some 2) = Except.ok r ∧
      r.values.length = [(1 : ℚ), 2, 3, 4].length * 1 / 2 ∧
      ∀ b, b < r.values.length →
        r.values.getD b 0 = mean (windowSamples 0 1 2 (0 / 2 + b) [(1 : ℚ), 2, 3, 4])) :=
  ⟨by decide, by decide, by decide, by decide, by decide,
    rrd_fetch_resample_mean 0 1 2 [(1 : ℚ), 2, 3, 4] (by decide) (by decide)
      (by decide) (by decide) (by decide)⟩

/-- C2 (amended): `rrd_fetch` raises the resample error exactly when the
requested target step is nonzero and strictly smaller than the native step.
A zero requested step is falsy in Python (`if step:`), so it disables
resampling instead of raising. -/
theorem rrd_fetch_downsample_error (start s t : ℕ) (raw : List ℚ)
    (hraw : raw ≠ []) :
    isErr (rrd_fetch start s raw (some t)) = true ↔ t ≠ 0 ∧ t < s := by
  rw [rrd_fetch]
  by_cases h0 : t = 0
  · simp [h0, isErr]
  · by_cases hlt : t < s
    · simp [h0, hlt, isErr]
    · simp [h0, hlt, isErr]

/-- C2 counterexample: a requested target step of 0 (Python `timedelta(0)`,
reachable via `-i 0s`) is strictly smaller than the native step 60, yet
`rrd_fetch` does not raise: `if step:` is false for a zero `timedelta`, so
the native data is returned unchanged. -/
theorem rrd_fetch_zero_step_no_error :
    rrd_fetch 0 60 [(1 : ℚ)] (some 0) = Except.ok ⟨0, 60, 60, [1]⟩ ∧ (0 : ℕ) < 60 := by
  constructor
  · rfl
  · decide

/-- C2 witness: with one sample at native step 2, requesting step 1 errors
(1 ≠ 0 and 1 < 2); the equivalence is applied at that concrete input. -/
theorem rrd_fetch_downsample_error_witness :
    ([(1 : ℚ)] ≠ []) ∧
    (isErr (rrd_fetch 0 2 [(1 : ℚ)] (some 1)) = true ↔ (1 : ℕ) ≠ 0 ∧ (1 : ℕ) < 2) :=
  ⟨by decide, rrd_fetch_downsample_error 0 2 1 [(1 : ℚ)] (by decide)⟩

/-! ## Differencing engine (`statsmodels.tsa.statespace.tools.diff` as used
by `analyze.py`) -/

/-- One application of the pandas lag-`L` difference with the leading `L`
NaN entries dropped — `differenced.diff(L)[L:]` — i.e. `i ↦ x[i+L] - x[i]`. -/
def lagDiff (L : ℕ) (xs : List ℚ) : List ℚ :=
  (xs.drop L).zipWith (fun a b => a - b) xs

/-- Embedding of `statsmodels.tsa.statespace.tools.diff` for a pandas
series: the seasonal loop first applies the lag-`seasonal_periods`
difference `k_seasonal_diff` times (`differenced.diff(seasonal_periods)[seasonal_periods:]`
per iteration), then the simple loop applies the lag-1 difference
(`differenced.diff()[1:]`) `k_diff` times. -/
def diffStatsmodels (xs : List ℚ) (k_diff k_seasonal_diff seasonal_periods : ℕ) : List ℚ :=
  (lagDiff 1)^[k_diff] ((lagDiff seasonal_periods)^[k_seasonal_diff] xs)

/-- Object-level view of the `statsmodels` `diff` call: the values of the
returned series together with a Boolean recording whether the returned
Python object is the very input object.  Inside `diff` the local
`differenced` starts as the input series and every executed loop iteration
rebinds it to a freshly allocated series, so the input object itself is
returned exactly when both orders are zero. -/
def diffObj (xs : List ℚ) (k_diff k_seasonal_diff seasonal_periods : ℕ) : List ℚ × Bool :=
  (diffStatsmodels xs k_diff k_seasonal_diff seasonal_periods,
    decide (k_seasonal_diff = 0) && decide (k_diff = 0))

/-- The differencing step of `analyze.py`'s main loop: `differenced =
series` (a rebinding of the same object) unless a nonzero order was
requested, in which case `diff(series, k_diff=d, k_seasonal_diff=D,
seasonal_periods=L)` is called.  The Boolean records whether the resulting
object is the input series object. -/
def differencedSeries (series : List ℚ) (d D L : ℕ) : List ℚ × Bool :=
  if d ≠ 0 ∨ D ≠ 0 then diffObj series d D L else (series, true)

theorem lagDiff_length (L : ℕ) (xs : List ℚ) :
    (lagDiff L xs).length = xs.length - L := by
  rw [lagDiff, List.length_zipWith, List.length_drop]
  exact min_eq_left (Nat.sub_le _ _)

theorem lagDiff_iterate_length (L k : ℕ) (xs : List ℚ) :
    ((lagDiff L)^[k] xs).length = xs.length - k * L := by
  induction k with
  | zero => simp
  | succ k ih =>
    rw [Function.iterate_succ_apply', lagDiff_length, ih, Nat.succ_mul]
    omega

theorem lagDiff_eq_map (L : ℕ) (xs : List ℚ) :
    lagDiff L xs =
      (List.range (xs.length - L)).map fun i => xs.getD (i + L) 0 - xs.getD i 0 := by
  apply List.ext_getElem
  · rw [lagDiff_length]
    simp
  · intro i h1 h2
    rw [lagDiff_length] at h1
    have hiL : i + L < xs.length := by omega
    have hi : i < xs.length := by omega
    simp only [lagDiff, List.getElem_zipWith, List.getElem_map, List.getElem_range]
    rw [List.getElem_drop, List.getD_eq_getElem xs 0 hiL, List.getD_eq_getElem xs 0 hi]
    congr 2
    omega

/-- C4: the `statsmodels` differencing used by the pipeline applies the
seasonal difference first (`D` applications at lag `L`), then the ordinary
first difference (`d` applications); the result has length
`n - D·L - d`; one lag-`L` application maps `i ↦ x[i+L] - x[i]` and drops
the first `L` samples, and one ordinary application maps
`i ↦ x[i+1] - x[i]` and drops the first sample. -/
theorem diff_seasonal_then_simple (xs : List ℚ) (d D L : ℕ)
    (hL : 0 < L) (hlen : D * L + d ≤ xs.length) :
    diffStatsmodels xs d D L = (lagDiff 1)^[d] ((lagDiff L)^[D] xs) ∧
    (diffStatsmodels xs d D L).length = xs.length - D * L - d ∧
    lagDiff L xs = ((List.range (xs.length - L)).map fun i =>
      xs.getD (i + L) 0 - xs.getD i 0) ∧
    lagDiff 1 xs = ((List.range (xs.length - 1)).map fun i =>
      xs.getD (i + 1) 0 - xs.getD i 0) := by
  refine ⟨rfl, ?_, lagDiff_eq_map L xs, lagDiff_eq_map 1 xs⟩
  rw [diffStatsmodels, lagDiff_iterate_length, lagDiff_iterate_length, Nat.mul_one]

/-- C4 witness: `x = [1,2,3,4,5,6]`, `d = 1`, `D = 1`, `L = 2`. -/
theorem diff_seasonal_then_simple_witness :
    0 < 2 ∧ 1 * 2 + 1 ≤ [(1 : ℚ), 2, 3, 4, 5, 6].length ∧
    (diffStatsmodels [(1 : ℚ), 2, 3, 4, 5, 6] 1 1 2 =
        (lagDiff 1)^[1] ((lagDiff 2)^[1] [(1 : ℚ), 2, 3, 4, 5, 6]) ∧
      (diffStatsmodels [(1 : ℚ), 2, 3, 4, 5, 6] 1 1 2).length =
        [(1 : ℚ), 2, 3, 4, 5, 6].length - 1 * 2 - 1 ∧
      lagDiff 2 [(1 : ℚ), 2, 3, 4, 5, 6] =
        ((List.range ([(1 : ℚ), 2, 3, 4, 5, 6].length - 2)).map fun i =>
          [(1 : ℚ), 2, 3, 4, 5, 6].getD (i + 2) 0 - [(1 : ℚ), 2, 3, 4, 5, 6].getD i 0) ∧
      lagDiff 1 [(1 : ℚ), 2, 3, 4, 5, 6] =
        ((List.range ([(1 : ℚ), 2, 3, 4, 5, 6].length - 1)).map fun i =>
          [(1 : ℚ), 2, 3, 4, 5, 6].getD (i + 1) 0 - [(1 : ℚ), 2, 3, 4, 5, 6].getD i 0)) :=
  ⟨by decide, by decide,
    diff_seasonal_then_simple [(1 : ℚ), 2, 3, 4, 5, 6] 1 1 2 (by decide) (by decide)⟩

/-- C6 counterexample: with `d = 0, D = 0` the pipeline's "differenced"
series has the same length and values as the input — but it is the input
object itself (alias flag `true`), not a new equivalent series as the claim
requires: `differenced = series` is a plain rebinding and the `diff` call
is skipped entirely. -/
theorem differenced_identity_aliases :
    differencedSeries [(1 : ℚ), 2] 0 0 1 = ([1, 2], true) := by
  rw [differencedSeries, if_neg]
  simp

/-- C6 (amended): differencing with `d = 0, D = 0` is the identity on
length and values, but it returns the input series object itself (a
reference), not a fresh copy. -/
theorem differencedSeries_zero_orders (xs : List ℚ) (L : ℕ) :
    differencedSeries xs 0 0 L = (xs, true) := by
  rw [differencedSeries, if_neg]
  simp

/-! ## Stationarity classification (`analyze.py` main loop) -/

/-- The classification printed by `analyze.py`:
`f"... the series is likely {'non-' if pvalue > 0.05 else ''}stationary"`. -/
def adf_classification (pvalue : ℚ) : String :=
  (if pvalue > 1 / 20 then "non-" else "") ++ "stationary"

/-- C5 counterexample: at a p-value of exactly 0.05 the code prints
"stationary" (its test is `pvalue > 0.05`), while the claim requires
non-stationary there (`p < 0.05` strictly for stationarity). -/
theorem adf_classification_boundary :
    adf_classification (1 / 20) = "stationary" ∧ ¬((1 / 20 : ℚ) < 1 / 20) := by
  constructor
  · rw [adf_classification, if_neg (lt_irrefl _)]
    decide
  · exact lt_irrefl _

/-- C5 (amended): the series is classified stationary exactly when the
p-value is at most 0.05, and non-stationary exactly when it exceeds 0.05;
the threshold is the fixed constant 0.05. -/
theorem adf_classification_spec (p : ℚ) :
    (adf_classification p = "stationary" ↔ p ≤ 1 / 20) ∧
    (adf_classification p = "non-stationary" ↔ 1 / 20 < p) := by
  rw [adf_classification]
  by_cases h : p > 1 / 20
  · rw [if_pos h]
    refine ⟨⟨fun hc => absurd hc (by decide), fun hle => absurd h (not_lt.mpr hle)⟩,
      ⟨fun _ => h, fun _ => by decide⟩⟩
  · rw [if_neg h]
    refine ⟨⟨fun _ => not_lt.mp h, fun _ => by decide⟩,
      ⟨fun hc => absurd hc (by decide), fun hlt => absurd hlt h⟩⟩

/-! ## Period validation for seasonal decomposition (`analyze.py` CLI) -/

/-- Python float modulo for positive divisor: `p % s = p - s * floor(p / s)`. -/
def pyMod (p s : ℚ) : ℚ := p - s * ⌊p / s⌋

/-- One configured period checked by `analyze.py`:
`parser.error` if `period / step < 2`, else `parser.error` if
`period % step != 0`. -/
def checkPeriod (step p : ℚ) : Option String :=
  if p / step < 2 then some "too short"
  else if pyMod p step ≠ 0 then some "not a multiple"
  else none

/-- The validation loop over the configured periods: the first offending
period aborts (`parser.error` raises `SystemExit`). -/
def validatePeriods (step : ℚ) : List ℚ → Except String Unit
  | [] => .ok ()
  | p :: rest =>
    match checkPeriod step p with
    | some e => .error e
    | none => validatePeriods step rest

theorem pyMod_eq_zero_iff (step p : ℚ) (hs : step ≠ 0) :
    pyMod p step = 0 ↔ ∃ k : ℤ, p = step * k := by
  constructor
  · intro h
    refine ⟨⌊p / step⌋, ?_⟩
    rw [pyMod, sub_eq_zero] at h
    exact h
  · rintro ⟨k, rfl⟩
    rw [pyMod, mul_comm step (k : ℚ), mul_div_assoc, div_self hs, mul_one,
      Int.floor_intCast]
    ring

theorem checkPeriod_eq_none_iff (step p : ℚ) (hs : 0 < step) :
    checkPeriod step p = none ↔ (¬(p / step < 2) ∧ ∃ k : ℤ, p = step * k) := by
  rw [checkPeriod]
  by_cases h1 : p / step < 2
  · simp [h1]
  · rw [if_neg h1]
    by_cases h2 : pyMod p step = 0
    · rw [if_neg (by simpa using h2)]
      simp only [h1, not_false_iff, true_and]
      constructor
      · intro _
        exact (pyMod_eq_zero_iff step p (ne_of_gt hs)).mp h2
      · intro _
        trivial
    · rw [if_pos h2]
      simp only [h1, not_false_iff, true_and]
      constructor
      · intro hc
        exact absurd hc (by simp)
      · intro hk
        exact absurd ((pyMod_eq_zero_iff step p (ne_of_gt hs)).mpr hk) h2

/-- C8: the CLI period validation passes exactly when every configured
period spans at least 2 samples (`p / s ≥ 2`) and is an exact multiple of
the canonical step; equivalently it fails with the period error exactly
when some period violates one of the two conditions. -/
theorem validate_periods_spec (step : ℚ) (ps : List ℚ) (hs : 0 < step) :
    validatePeriods step ps = Except.ok () ↔
      ∀ p ∈ ps, ¬(p / step < 2) ∧ ∃ k : ℤ, p = step * k := by
  induction ps with
  | nil => simp [validatePeriods]
  | cons p rest ih =>
    rw [validatePeriods]
    cases hcp : checkPeriod step p with
    | some e =>
      simp only [List.mem_cons]
      constructor
      · intro hc
        exact absurd hc (by simp)
      · intro hall
        have := (checkPeriod_eq_none_iff step p hs).mpr (hall p (Or.inl rfl))
        rw [hcp] at this
        exact absurd this (by simp)
    | none =>
      have hp := (checkPeriod_eq_none_iff step p hs).mp hcp
      rw [ih]
      constructor
      · intro hall q hq
        rcases List.mem_cons.mp hq with rfl | hq'
        · exact hp
        · exact hall q hq'
      · intro hall q hq
        exact hall q (List.mem_cons_of_mem p hq)

/-- C8 witness: step 1 with periods [2, 3] — validation passes and the
right-hand side holds. -/
theorem validate_periods_spec_witness :
    (0 : ℚ) < 1 ∧
    (validatePeriods 1 [2, 3] = Except.ok () ↔
      ∀ p ∈ [(2 : ℚ), 3], ¬(p / 1 < 2) ∧ ∃ k : ℤ, p = 1 * k) :=
  ⟨by norm_num, validate_periods_spec 1 [2, 3] (by norm_num)⟩

/-! ## Periodicity detector (`analyze.plot_fft`) -/

/-- `numpy.fft.fftfreq n d`: bin frequencies `[0, 1, …, (n-1)/2] / (n·d)`
followed by `[-(n/2), …, -1] / (n·d)` (integer divisions). -/
def fftfreqList (n : ℕ) (d : ℚ) : List ℚ :=
  ((List.range ((n - 1) / 2 + 1)).map fun k : ℕ => (k : ℚ) / (n * d)) ++
  ((List.range (n / 2)).map fun j : ℕ => ((j : ℚ) - ((n / 2 : ℕ) : ℚ)) / (n * d))

/-- Closed form of the `fftfreq` bins: bin `k` carries frequency
`k / (n·d)` in the first half and `(k - n) / (n·d)` in the second. -/
def fftfreqAt (n : ℕ) (d : ℚ) (k : ℕ) : ℚ :=
  if k ≤ (n - 1) / 2 then (k : ℚ) / (n * d) else ((k : ℚ) - (n : ℚ)) / (n * d)

/-- The positive-frequency amplitude spectrum: the pandas series
`f = Series(abs(fft(series)), index=fftfreq(len(series), d=step))`
restricted by `f = f[f.index > 0]`, as (amplitude, frequency) pairs in
index order.  The magnitude spectrum `amps = abs(fft(series))` is the
input: the numerical DFT itself is computed by numpy, an external
collaborator, and none of the verified properties depend on its values. -/
def spectrum (d : ℚ) (amps : List ℚ) : List (ℚ × ℚ) :=
  (amps.zip (fftfreqList amps.length d)).filter fun p => decide (0 < p.2)

/-- The order realised by `Series.nlargest(top)` (default `keep="first"`):
larger value first; among equal values the entry occurring earlier in the
series — here the lower frequency, since the positive bins are indexed in
increasing frequency order — comes first. -/
def ampOrder (a b : ℚ × ℚ) : Prop := b.1 < a.1 ∨ (a.1 = b.1 ∧ a.2 ≤ b.2)

instance : DecidableRel ampOrder := fun a b => by
  unfold ampOrder
  infer_instance

instance : IsTotal (ℚ × ℚ) ampOrder :=
  ⟨fun a b => by
    unfold ampOrder
    rcases lt_trichotomy a.1 b.1 with h | h | h
    · exact Or.inr (Or.inl h)
    · rcases le_total a.2 b.2 with h2 | h2
      · exact Or.inl (Or.inr ⟨h, h2⟩)
      · exact Or.inr (Or.inr ⟨h.symm, h2⟩)
    · exact Or.inl (Or.inl h)⟩

instance : IsTrans (ℚ × ℚ) ampOrder :=
  ⟨fun a b c hab hbc => by
    unfold ampOrder at hab hbc ⊢
    rcases hab with h1 | ⟨h1e, h1le⟩
    · rcases hbc with h2 | ⟨h2e, h2le⟩
      · exact Or.inl (h2.trans h1)
      · exact Or.inl (h2e ▸ h1)
    · rcases hbc with h2 | ⟨h2e, h2le⟩
      · rw [h1e]
        exact Or.inl h2
      · exact Or.inr ⟨h1e.trans h2e, h1le.trans h2le⟩⟩

/-- `f.nlargest(top)`: stable sort by descending value (ties keep the
earlier entry), then take the first `top` entries. -/
def nlargest (top : ℕ) (l : List (ℚ × ℚ)) : List (ℚ × ℚ) :=
  (List.insertionSort ampOrder l).take top

/-- Embedding of `analyze.plot_fft` (the analytic content; the rendered
figure is dropped).  `d` is the series step in seconds and `amps` the
magnitude spectrum of the series, so `amps.length` is the series length.
An empty series makes `fft` itself raise (`Invalid number of FFT data
points`); and when no frequency survives the `f.index > 0` filter and the
`nlargest` cut, the `ax.set_xlim(0, np.max(freqs) * 1.1)` call raises on
the empty `freqs` before the function can return.  Otherwise the periods
`1/f` of the selected frequencies are returned. -/
def plot_fft (d : ℚ) (amps : List ℚ) (top : ℕ) : Except String (List ℚ) :=
  if amps = [] then .error "Invalid number of FFT data points"
  else
    let sel := nlargest top (spectrum d amps)
    let periods := sel.map fun p => 1 / p.2
    if sel = [] then .error "empty frequency selection: np.max raises"
    else .ok periods

/-- Zipping a list with a map over `range` is an indexed map. -/
theorem zip_map_range {α : Type} (dflt : α) (xs : List α) (g : ℕ → ℚ) (m : ℕ)
    (hm : m ≤ xs.length) :
    xs.zip ((List.range m).map g) = (List.range m).map fun j => (xs.getD j dflt, g j) := by
  apply List.ext_getElem
  · simp [List.length_zip, Nat.min_eq_right hm]
  · intro i h1 h2
    simp only [List.length_zip, List.length_map, List.length_range, lt_min_iff] at h1
    simp only [List.getElem_zip, List.getElem_map, List.getElem_range]
    rw [List.getD_eq_getElem xs dflt (lt_of_lt_of_le h1.2 hm)]

theorem fftfreqList_eq_map (n : ℕ) (d : ℚ) (hn : 0 < n) :
    fftfreqList n d = (List.range n).map (fftfreqAt n d) := by
  have hsplit : n = ((n - 1) / 2 + 1) + n / 2 := by omega
  conv_rhs =>
    rw [show List.range n = List.range (((n - 1) / 2 + 1) + n / 2) from by
      rw [← hsplit]]
    rw [List.range_add, List.map_append]
  rw [fftfreqList]
  congr 1
  · apply List.map_congr_left
    intro k hk
    rw [List.mem_range] at hk
    rw [fftfreqAt, if_pos (by omega)]
  · rw [List.map_map]
    apply List.map_congr_left
    intro j hj
    rw [List.mem_range] at hj
    simp only [Function.comp_apply]
    rw [fftfreqAt, if_neg (by omega)]
    congr 1
    have hc : (n : ℚ) = (((n - 1) / 2 + 1 : ℕ) : ℚ) + ((n / 2 : ℕ) : ℚ) := by
      exact_mod_cast congrArg (fun x : ℕ => (x : ℚ)) hsplit
    push_cast at hc ⊢
    linarith

/-- The positive-frequency filter keeps exactly the bins `1 … (n-1)/2`,
in increasing frequency order. -/
theorem spectrum_eq (d : ℚ) (amps : List ℚ) (hd : 0 < d) (hne : amps ≠ []) :
    spectrum d amps = (List.range ((amps.length - 1) / 2)).map
      fun j => (amps.getD (j + 1) 0, ((j : ℚ) + 1) / (amps.length * d)) := by
  have hn : 0 < amps.length := List.length_pos.mpr hne
  have hnd : 0 < (amps.length : ℚ) * d := by
    apply mul_pos _ hd
    exact_mod_cast hn
  rw [spectrum, fftfreqList_eq_map _ _ hn, zip_map_range 0 _ _ _ (by simp),
    List.filter_map]
  have hcond : ∀ k ∈ List.range amps.length,
      ((fun p : ℚ × ℚ => decide (0 < p.2)) ∘
        fun j => (amps.getD j 0, fftfreqAt amps.length d j)) k =
      (fun k => decide (1 ≤ k ∧ k ≤ (amps.length - 1) / 2)) k := by
    intro k hk
    rw [List.mem_range] at hk
    simp only [Function.comp_apply, decide_eq_decide]
    rw [fftfreqAt]
    by_cases hke : k ≤ (amps.length - 1) / 2
    · rw [if_pos hke]
      constructor
      · intro h
        rcases Nat.eq_zero_or_pos k with rfl | hk1
        · rw [Nat.cast_zero, zero_div] at h
          exact absurd h (by norm_num)
        · exact ⟨hk1, hke⟩
      · rintro ⟨h1, _⟩
        apply div_pos _ hnd
        exact_mod_cast h1
    · rw [if_neg hke]
      constructor
      · intro h
        exfalso
        have hneg : (k : ℚ) - (amps.length : ℚ) < 0 := by
          have : (k : ℚ) < (amps.length : ℚ) := by exact_mod_cast hk
          linarith
        have := div_neg_of_neg_of_pos hneg hnd
        linarith
      · rintro ⟨_, h2⟩
        exact absurd h2 hke
  rw [List.filter_congr hcond]
  have hrange : (List.range amps.length).filter
      (fun k => decide (1 ≤ k ∧ k ≤ (amps.length - 1) / 2)) =
      (List.range ((amps.length - 1) / 2)).map (· + 1) := by
    have hsplit : amps.length = ((amps.length - 1) / 2 + 1) +
        (amps.length - ((amps.length - 1) / 2 + 1)) := by omega
    rw [show List.range amps.length = List.range (((amps.length - 1) / 2 + 1) +
        (amps.length - ((amps.length - 1) / 2 + 1))) by rw [← hsplit]]
    rw [List.range_add, List.filter_append, List.range_succ_eq_map]
    have h0 : (decide (1 ≤ 0 ∧ 0 ≤ (amps.length - 1) / 2)) = false := by
      simp
    rw [List.filter_cons_of_neg (by simp), List.filter_map]
    have hall : ((List.range ((amps.length - 1) / 2)).filter
        ((fun k => decide (1 ≤ k ∧ k ≤ (amps.length - 1) / 2)) ∘ Nat.succ)) =
        List.range ((amps.length - 1) / 2) := by
      apply List.filter_eq_self.mpr
      intro j hj
      rw [List.mem_range] at hj
      simp only [Function.comp_apply]
      refine decide_eq_true ?_
      omega
    rw [hall]
    have hnil : ((List.range (amps.length - ((amps.length - 1) / 2 + 1))).map
        (fun x => (amps.length - 1) / 2 + 1 + x)).filter
        (fun k => decide (1 ≤ k ∧ k ≤ (amps.length - 1) / 2)) = [] := by
      apply List.filter_eq_nil_iff.mpr
      intro a ha
      rw [List.mem_map] at ha
      obtain ⟨j, _, rfl⟩ := ha
      simp only [decide_eq_true_eq]
      omega
    rw [hnil, List.append_nil]
  rw [hrange, List.map_map]
  apply List.map_congr_left
  intro j hj
  rw [List.mem_range] at hj
  simp only [Function.comp_apply]
  rw [fftfreqAt, if_pos (by omega)]
  congr 1
  push_cast
  ring

theorem nlargest_length (top : ℕ) (l : List (ℚ × ℚ)) :
    (nlargest top l).length = min top l.length := by
  rw [nlargest, List.length_take, List.length_insertionSort]

theorem nlargest_sorted (top : ℕ) (l : List (ℚ × ℚ)) :
    List.Sorted ampOrder (nlargest top l) :=
  List.Pairwise.sublist (List.take_sublist _ _) (List.sorted_insertionSort ampOrder l)

theorem nlargest_subset (top : ℕ) (l : List (ℚ × ℚ)) :
    ∀ p ∈ nlargest top l, p ∈ l := fun p hp =>
  (List.perm_insertionSort ampOrder l).subset (List.mem_of_mem_take hp)

theorem nlargest_nil (top : ℕ) : nlargest top [] = [] := by
  rw [nlargest, show List.insertionSort ampOrder [] = [] from rfl, List.take_nil]

/-- On a series of at least 3 samples with `top ≥ 1` the selection is
nonempty, so `plot_fft` reaches its return statement and yields the periods
`1/f` of the selected frequencies. -/
theorem plot_fft_run (d : ℚ) (amps : List ℚ) (k : ℕ)
    (hd : 0 < d) (hn : 3 ≤ amps.length) (hk : 1 ≤ k) :
    plot_fft d amps k =
      Except.ok ((nlargest k (spectrum d amps)).map fun p => 1 / p.2) := by
  have hne : amps ≠ [] := by
    intro h
    rw [h] at hn
    simp at hn
  have hlen : (spectrum d amps).length = (amps.length - 1) / 2 := by
    rw [spectrum_eq d amps hd hne]
    simp
  have hselne : nlargest k (spectrum d amps) ≠ [] := by
    intro h
    have hl := congrArg List.length h
    rw [nlargest_length, hlen] at hl
    simp only [List.length_nil] at hl
    omega
  rw [plot_fft, if_neg hne]
  simp only [if_neg hselne]

/-- C3 (amended): for a series of at least 3 samples and a requested count
`k ≥ 1`, `plot_fft` returns exactly `min k ((n-1)/2)` periods — one per
selected positive-frequency bin — ordered by non-increasing amplitude with
ties broken by lower frequency first, the zero/DC and negative bins
excluded, each period being `1/f` for its selected frequency `f`.  (For
`n ≤ 2` there is no positive bin, and for `k = 0` nothing is selected; in
those cases the function raises instead of returning an empty list, which
is why the claim's `n ≥ 2`/arbitrary `k` version fails.) -/
theorem plot_fft_top_k (d : ℚ) (amps : List ℚ) (k : ℕ)
    (hd : 0 < d) (hn : 3 ≤ amps.length) (hk : 1 ≤ k) :
    plot_fft d amps k =
      Except.ok ((nlargest k (spectrum d amps)).map fun p => 1 / p.2) ∧
    (nlargest k (spectrum d amps)).length = min k ((amps.length - 1) / 2) ∧
    List.Sorted ampOrder (nlargest k (spectrum d amps)) ∧
    ∀ p ∈ nlargest k (spectrum d amps), 0 < p.2 := by
  have hne : amps ≠ [] := by
    intro h
    rw [h] at hn
    simp at hn
  have hlen : (spectrum d amps).length = (amps.length - 1) / 2 := by
    rw [spectrum_eq d amps hd hne]
    simp
  refine ⟨plot_fft_run d amps k hd hn hk, ?_, nlargest_sorted k _, ?_⟩
  · rw [nlargest_length, hlen]
  · intro p hp
    have hmem := nlargest_subset k (spectrum d amps) p hp
    rw [spectrum_eq d amps hd hne, List.mem_map] at hmem
    obtain ⟨j, _, rfl⟩ := hmem
    have hnq : (0 : ℚ) < amps.length := by
      exact_mod_cast (show 0 < amps.length by omega)
    simp only
    apply div_pos (by positivity) (mul_pos hnq hd)

/-- C3 witness: series length 5, step 1 s, `top = 2`. -/
theorem plot_fft_top_k_witness :
    (0 : ℚ) < 1 ∧ 3 ≤ [(9 : ℚ), 5, 1, 4, 4].length ∧ 1 ≤ 2 ∧
    (plot_fft 1 [(9 : ℚ), 5, 1, 4, 4] 2 =
      Except.ok ((nlargest 2 (spectrum 1 [(9 : ℚ), 5, 1, 4, 4])).map fun p => 1 / p.2) ∧
    (nlargest 2 (spectrum 1 [(9 : ℚ), 5, 1, 4, 4])).length =
      min 2 (([(9 : ℚ), 5, 1, 4, 4].length - 1) / 2) ∧
    List.Sorted ampOrder (nlargest 2 (spectrum 1 [(9 : ℚ), 5, 1, 4, 4])) ∧
    ∀ p ∈ nlargest 2 (spectrum 1 [(9 : ℚ), 5, 1, 4, 4]), 0 < p.2) :=
  ⟨by norm_num, by norm_num, by norm_num,
    plot_fft_top_k 1 [(9 : ℚ), 5, 1, 4, 4] 2 (by norm_num) (by norm_num) (by norm_num)⟩

/-- C3 counterexample: a series of exactly 2 samples has no positive
`fftfreq` bin (`fftfreq(2) = [0, -1/2d]`), so `freqs` is empty and
`np.max(freqs)` raises before `plot_fft` can return the empty period list
the claim predicts for `min(k, 0) = 0`. -/
theorem plot_fft_two_samples_raises :
    isErr (plot_fft 1 [(1 : ℚ), 1] 3) = true ∧
    plot_fft 1 [(1 : ℚ), 1] 3 ≠ Except.ok [] := by
  have hsp : spectrum 1 [(1 : ℚ), 1] = [] := by
    rw [spectrum_eq 1 [(1 : ℚ), 1] (by norm_num) (by simp)]
    rfl
  have hrun : plot_fft 1 [(1 : ℚ), 1] 3 =
      Except.error "empty frequency selection: np.max raises" := by
    rw [plot_fft, if_neg (by simp)]
    simp only [hsp]
    rfl
  rw [hrun]
  constructor
  · rfl
  · intro h
    exact absurd h (by simp)

/-- C7: on a series with fewer than 2 samples `plot_fft` fails rather than
returning a period list: with 0 samples `fft` itself raises on an empty
input, and with 1 sample the only bin is the DC bin, so the positive-
frequency selection is empty and `np.max(freqs)` raises. -/
theorem plot_fft_insufficient_data (d : ℚ) (amps : List ℚ) (top : ℕ)
    (h : amps.length < 2) : isErr (plot_fft d amps top) = true := by
  match amps, h with
  | [], _ =>
    rw [plot_fft, if_pos rfl]
    rfl
  | [a], _ =>
    have hf : fftfreqList [a].length d = [0] := by
      norm_num [fftfreqList, List.range_succ]
    have hsp : spectrum d [a] = [] := by
      rw [spectrum, hf]
      rfl
    rw [plot_fft, if_neg (by simp)]
    simp only [hsp, nlargest_nil]
    rfl

/-- C7 witness: a single-sample series fails. -/
theorem plot_fft_insufficient_data_witness :
    [(1 : ℚ)].length < 2 ∧ isErr (plot_fft 1 [(1 : ℚ)] 3) = true :=
  ⟨by decide, plot_fft_insufficient_data 1 [(1 : ℚ)] 3 (by decide)⟩

/-- C10: every period returned by `plot_fft` is strictly greater than twice
the series' step and at most `n` times the step: the selected frequencies
are positive `fftfreq` bins `(j+1)/(n·d)` with `j+1 ≤ (n-1)/2`, hence
strictly below the Nyquist frequency `1/(2d)` and at least `1/(n·d)`. -/
theorem plot_fft_period_bounds (d : ℚ) (amps : List ℚ) (top : ℕ) (ps : List ℚ)
    (hd : 0 < d) (h : plot_fft d amps top = Except.ok ps) :
    ∀ p ∈ ps, 2 * d < p ∧ p ≤ (amps.length : ℚ) * d := by
  by_cases hne : amps = []
  · rw [plot_fft, if_pos hne] at h
    exact absurd h (by simp)
  · rw [plot_fft, if_neg hne] at h
    by_cases hsel : nlargest top (spectrum d amps) = []
    · simp only [if_pos hsel] at h
      exact absurd h (by simp)
    · simp only [if_neg hsel] at h
      have hps : ps = (nlargest top (spectrum d amps)).map fun p => 1 / p.2 :=
        (Except.ok.inj h).symm
      have hspne : spectrum d amps ≠ [] := by
        intro hvac
        apply hsel
        rw [hvac, nlargest_nil]
      have hn3 : 3 ≤ amps.length := by
        by_contra hlt
        apply hspne
        apply List.length_eq_zero.mp
        rw [spectrum_eq d amps hd hne]
        simp only [List.length_map, List.length_range]
        omega
      intro p hp
      rw [hps, List.mem_map] at hp
      obtain ⟨q, hq, rfl⟩ := hp
      have hqs := nlargest_subset top (spectrum d amps) q hq
      rw [spectrum_eq d amps hd hne, List.mem_map] at hqs
      obtain ⟨j, hj, rfl⟩ := hqs
      rw [List.mem_range] at hj
      have hnq : (0 : ℚ) < amps.length := by
        exact_mod_cast (show 0 < amps.length by omega)
      have hndpos : (0 : ℚ) < (amps.length : ℚ) * d := mul_pos hnq hd
      have hJ : (0 : ℚ) < (j : ℚ) + 1 := by positivity
      simp only [one_div_div]
      constructor
      · rw [lt_div_iff hJ]
        have h2j : 2 * (j + 1) < amps.length := by omega
        have h2j' : (2 * (j + 1) : ℚ) < amps.length := by exact_mod_cast h2j
        calc 2 * d * ((j : ℚ) + 1) = (2 * ((j : ℚ) + 1)) * d := by ring
          _ < (amps.length : ℚ) * d := by
            apply mul_lt_mul_of_pos_right _ hd
            linarith [h2j']
      · rw [div_le_iff hJ]
        calc (amps.length : ℚ) * d = (amps.length : ℚ) * d * 1 := by ring
          _ ≤ (amps.length : ℚ) * d * ((j : ℚ) + 1) := by
            apply mul_le_mul_of_nonneg_left _ (le_of_lt hndpos)
            linarith

/-- C10 witness: series length 3, step 1 s, `top = 1`: the single returned
period lies in `(2, 3]`. -/
theorem plot_fft_period_bounds_witness :
    (0 : ℚ) < 1 ∧
    plot_fft 1 [(0 : ℚ), 5, 1] 1 =
      Except.ok ((nlargest 1 (spectrum 1 [(0 : ℚ), 5, 1])).map fun p => 1 / p.2) ∧
    ∀ p ∈ (nlargest 1 (spectrum 1 [(0 : ℚ), 5, 1])).map fun p => 1 / p.2,
      2 * 1 < p ∧ p ≤ (([(0 : ℚ), 5, 1].length : ℕ) : ℚ) * 1 :=
  ⟨by norm_num, plot_fft_run 1 [(0 : ℚ), 5, 1] 1 (by norm_num) (by norm_num) (by norm_num),
    plot_fft_period_bounds 1 [(0 : ℚ), 5, 1] 1
      ((nlargest 1 (spectrum 1 [(0 : ℚ), 5, 1])).map fun p => 1 / p.2) (by norm_num)
      (plot_fft_run 1 [(0 : ℚ), 5, 1] 1 (by norm_num) (by norm_num) (by norm_num))⟩

end Gdr

namespace Gdr

/-! ## Interpolation stage of the `analyze.py` main loop -/

/-- The last present value strictly before index `i` (with its index). -/
def prevValid (xs : List (Option ℚ)) (i : ℕ) : Option (ℕ × ℚ) :=
  (List.range i).reverse.findSome? fun j => (xs.getD j none).map fun v => (j, v)

/-- The first present value strictly after index `i` (with its index). -/
def nextValid (xs : List (Option ℚ)) (i : ℕ) : Option (ℕ × ℚ) :=
  (List.range xs.length).findSome? fun j =>
    if i < j then (xs.getD j none).map fun v => (j, v) else none

/-- Modelled from the spec: `pandas.Series.interpolate(method="time")`, an
external-library primitive, on the uniform time grid of an `rrd_fetch`
series (so time-linear interpolation is index-linear).  A missing value
between two present values is filled linearly; missing values after the
last present value take that value (pandas' default forward fill
direction); leading missing values stay missing. -/
def interpolateTime (xs : List (Option ℚ)) : List (Option ℚ) :=
  (List.range xs.length).map fun i =>
    match xs.getD i none with
    | some v => some v
    | none =>
      match prevValid xs i, nextValid xs i with
      | some (j, a), some (k, b) => some (a + (b - a) * ((i : ℚ) - j) / ((k : ℚ) - j))
      | some (_, a), none => some a
      | none, _ => none

/-- The interpolation stage of the main loop:
`series.interpolate(method="time", inplace=True)`.  With `inplace=True`
pandas writes the result into the series object itself — the object stored
in the `data` dict.  The first component is the stored series after the
stage runs, the second the series the following stages read: the same
object. -/
def interpolateStage (stored : List (Option ℚ)) : List (Option ℚ) × List (Option ℚ) :=
  (interpolateTime stored, interpolateTime stored)

/-- C9 counterexample: a series with an interior gap, `[0, ·, 2]`.  After
the interpolation stage the stored series is no longer the input series:
the gap has been filled in place (`inplace=True`), so the stage mutated the
existing TimeSeries rather than producing a separate derived series. -/
theorem interpolate_stage_mutates_input :
    (interpolateStage [some (0 : ℚ), none, some 2]).1 ≠ [some 0, none, some 2] := by
  intro h
  have h1 : (interpolateStage [some (0 : ℚ), none, some 2]).1.getD 1 none =
      [some (0 : ℚ), none, some 2].getD 1 none :=
    congrArg (fun l => l.getD 1 none) h
  have h2 : (interpolateStage [some (0 : ℚ), none, some 2]).1.getD 1 none =
      some (0 + (2 - 0) * (((1 : ℕ) : ℚ) - ((0 : ℕ) : ℚ)) /
        (((2 : ℕ) : ℚ) - ((0 : ℕ) : ℚ))) := rfl
  rw [h2] at h1
  simp at h1

/-- C9 (amended): the interpolation stage updates the stored series in
place: afterwards the stored series is the time-interpolated series (not
the original), and the series handed to the downstream stages is that same
object; the length is preserved.  The downstream stages (periodicity
detection, differencing, stationarity test) only read the series. -/
theorem interpolate_stage_inplace (stored : List (Option ℚ)) :
    (interpolateStage stored).1 = interpolateTime stored ∧
    (interpolateStage stored).2 = (interpolateStage stored).1 ∧
    (interpolateStage stored).1.length = stored.length := by
  refine ⟨rfl, rfl, ?_⟩
  rw [interpolateStage]
  simp [interpolateTime]

end Gdr
